import Mathlib

/-!
Verification of the union-find module with split/deprecation
(`src/unionfind.rs`).

Shallow embedding notes.

* Ids are modelled as `Nat` (the source treats an `Id` as a dense
  non-negative integer index into the parent table).
* The parent table `parents : Vec<Id>` becomes `List Nat`; the
  deprecated-leader collection `deprecated_leaders : Vec<Id>` becomes
  `List Nat` (push = append, membership = `contains`).
* Rust panics become explicit error values: an out-of-range index panic
  becomes `UFError.outOfBounds`, and the two deprecated-leader panic
  messages (both of which carry the offending id and the original query
  id) become `UFError.deprecated offending original`.
* The `while` loops of `find` and `find_mut` are embedded with a fuel
  parameter.  The top-level wrappers use fuel `parents.length + 1`,
  which is enough for every traversal of an acyclic parent table (the
  visited ids of a terminating walk are pairwise distinct); running out
  of fuel is reported as `UFError.noFuel` and corresponds to states on
  which the source loop does not terminate within that many steps.
-/

structure UnionFind where
  parents : List Nat
  deprecated_leaders : List Nat
deriving DecidableEq

inductive UFError where
  | deprecated (offending : Nat) (original : Nat)
  | outOfBounds (query : Nat)
  | noFuel
deriving DecidableEq

namespace UnionFind

/-- The empty forest, `UnionFind::default()`. -/
def empty : UnionFind := { parents := [], deprecated_leaders := [] }

/-- `make_set`: appends a new element whose parent is itself and returns
its id (the old length of the parent table). -/
def make_set (uf : UnionFind) : UnionFind × Nat :=
  ({ uf with parents := uf.parents ++ [uf.parents.length] }, uf.parents.length)

/-- `size`: the number of allocated ids. -/
def size (uf : UnionFind) : Nat := uf.parents.length

/-- `parent`: table lookup `self.parents[usize::from(query)]`; `none`
models the index-out-of-range panic. -/
def parent (uf : UnionFind) (query : Nat) : Option Nat :=
  uf.parents[query]?

/-- The loop of `UnionFind::find`: while `current != parent(current)`,
check the deprecated set for `current`, then advance to the parent.
The terminal self-looped id is returned without a deprecated check,
exactly as in the source loop. -/
def findAux (uf : UnionFind) (original : Nat) : Nat → Nat → Except UFError Nat
  | 0, _ => .error .noFuel
  | fuel + 1, current =>
    match uf.parent current with
    | none => .error (.outOfBounds current)
    | some p =>
      if current = p then .ok current
      else if current ∈ uf.deprecated_leaders then .error (.deprecated current original)
      else findAux uf original fuel p

/-- `find`: checks the starting id against the deprecated set, then runs
the traversal loop. -/
def find (uf : UnionFind) (id : Nat) : Except UFError Nat :=
  if id ∈ uf.deprecated_leaders then .error (.deprecated id id)
  else findAux uf id (uf.parents.length + 1) id

/-- The loop of `UnionFind::find_mut`: like `findAux` but with
path halving, rewriting the parent of `current` to its grandparent
before advancing to that grandparent. -/
def findMutAux (original : Nat) : Nat → UnionFind → Nat → Except UFError (UnionFind × Nat)
  | 0, _, _ => .error .noFuel
  | fuel + 1, uf, current =>
    match uf.parent current with
    | none => .error (.outOfBounds current)
    | some p =>
      if current = p then .ok (uf, current)
      else if current ∈ uf.deprecated_leaders then .error (.deprecated current original)
      else
        match uf.parent p with
        | none => .error (.outOfBounds p)
        | some grandparent =>
          findMutAux original fuel
            { uf with parents := uf.parents.set current grandparent } grandparent

/-- `find_mut`: checks the starting id against the deprecated set, then
runs the compressing traversal loop, returning the updated forest and
the leader. -/
def find_mut (uf : UnionFind) (id : Nat) : Except UFError (UnionFind × Nat) :=
  if id ∈ uf.deprecated_leaders then .error (.deprecated id id)
  else findMutAux id (uf.parents.length + 1) uf id

/-- `union`: sets the parent entry of `root2` to `root1` and returns
`root1`.  The only table access is the write at index `root2`. -/
def union (uf : UnionFind) (root1 root2 : Nat) : Except UFError (UnionFind × Nat) :=
  if root2 < uf.parents.length then
    .ok ({ uf with parents := uf.parents.set root2 root1 }, root1)
  else .error (.outOfBounds root2)

/-- The inner loop of `split`: reassigns every id of `members` to have
`new_leader` as its direct parent, in order; `none` models the index
panic when a member is out of range. -/
def setMembers (parents : List Nat) (new_leader : Nat) : List Nat → Option (List Nat)
  | [] => some parents
  | member :: rest =>
    if member < parents.length then
      setMembers (parents.set member new_leader) new_leader rest
    else none

/-- The outer loop of `split`: processes the clusters in order. -/
def splitClusters (parents : List Nat) : List (Nat × List Nat) → Option (List Nat)
  | [] => some parents
  | (new_leader, members) :: rest =>
    match setMembers parents new_leader members with
    | some parents2 => splitClusters parents2 rest
    | none => none

/-- `split`: pushes `leader_id` onto the deprecated list if it is not
already present, then relinks every listed member to its cluster's new
leader. -/
def split (uf : UnionFind) (leader_id : Nat) (clusters : List (Nat × List Nat)) :
    Option UnionFind :=
  let dep :=
    if leader_id ∈ uf.deprecated_leaders then uf.deprecated_leaders
    else uf.deprecated_leaders ++ [leader_id]
  match splitClusters uf.parents clusters with
  | some parents2 => some { parents := parents2, deprecated_leaders := dep }
  | none => none

/-- The deprecated-leader list after `split uf l …`: `l` is pushed if it
is not already present (idempotent insertion). -/
def depAfter (uf : UnionFind) (l : Nat) : List Nat :=
  if l ∈ uf.deprecated_leaders then uf.deprecated_leaders
  else uf.deprecated_leaders ++ [l]

/-- Iterated parent lookup: the id reached after `k` steps of the parent
chain starting from `x`, or `none` if an index goes out of range. -/
def iterParent (uf : UnionFind) : Nat → Nat → Option Nat
  | 0, x => some x
  | k + 1, x =>
    match uf.parent x with
    | some p => iterParent uf k p
    | none => none

/-- `n` consecutive `make_set` calls. -/
def makeSets : UnionFind → Nat → UnionFind
  | uf, 0 => uf
  | uf, n + 1 => makeSets (make_set uf).1 n

/-- One state transition of the forest: any single successful public
operation (`make_set`, a successful `union`, `find_mut` or `split`;
`size` and `find` do not change the state). -/
inductive Step : UnionFind → UnionFind → Prop
  | make_set (uf : UnionFind) : Step uf (make_set uf).1
  | union (uf : UnionFind) (a b : Nat) (uf2 : UnionFind) (r : Nat) :
      union uf a b = .ok (uf2, r) → Step uf uf2
  | find_mut (uf : UnionFind) (i : Nat) (uf2 : UnionFind) (r : Nat) :
      find_mut uf i = .ok (uf2, r) → Step uf uf2
  | split (uf : UnionFind) (l : Nat) (cs : List (Nat × List Nat)) (uf2 : UnionFind) :
      split uf l cs = some uf2 → Step uf uf2

/-- Reachability: zero or more operations applied to a forest state. -/
def Reach : UnionFind → UnionFind → Prop := Relation.ReflTransGen Step

/-- States reachable from the empty forest using only `make_set` and
successful `union` calls (no splits). -/
inductive MergeReach : UnionFind → Prop
  | empty : MergeReach empty
  | step_make (uf : UnionFind) : MergeReach uf → MergeReach (make_set uf).1
  | step_union (uf : UnionFind) (a b : Nat) (uf2 : UnionFind) (r : Nat) :
      MergeReach uf → union uf a b = .ok (uf2, r) → MergeReach uf2

/-- The concrete merge scenario of the source test suite: ten
`make_set` calls, six unions, then `find_mut` on every id. -/
def mergeScenario : Except UFError UnionFind := do
  let uf0 := makeSets empty 10
  let (uf1, _) ← union uf0 0 1
  let (uf2, _) ← union uf1 0 2
  let (uf3, _) ← union uf2 0 3
  let (uf4, _) ← union uf3 6 7
  let (uf5, _) ← union uf4 6 8
  let (uf6, _) ← union uf5 6 9
  let (uf7, _) ← find_mut uf6 0
  let (uf8, _) ← find_mut uf7 1
  let (uf9, _) ← find_mut uf8 2
  let (uf10, _) ← find_mut uf9 3
  let (uf11, _) ← find_mut uf10 4
  let (uf12, _) ← find_mut uf11 5
  let (uf13, _) ← find_mut uf12 6
  let (uf14, _) ← find_mut uf13 7
  let (uf15, _) ← find_mut uf14 8
  let (uf16, _) ← find_mut uf15 9
  pure uf16

/-! ### Basic lemmas about single traversal steps -/

theorem parent_lt (uf : UnionFind) (q p : Nat) (h : uf.parent q = some p) :
    q < uf.parents.length := by
  simp only [parent] at h
  exact (List.getElem?_eq_some_iff.mp h).1

theorem parent_set_ne (uf : UnionFind) (c gp y : Nat) (h : c ≠ y) :
    parent { uf with parents := uf.parents.set c gp } y = uf.parent y := by
  simp [parent, List.getElem?_set_ne h]

theorem parent_set_self (uf : UnionFind) (c gp : Nat) (h : c < uf.parents.length) :
    parent { uf with parents := uf.parents.set c gp } c = some gp := by
  simp [parent, List.getElem?_set_self h]

theorem findAux_root (uf : UnionFind) (o fuel c : Nat) (hpc : uf.parent c = some c) :
    findAux uf o (fuel + 1) c = .ok c := by
  rw [findAux]
  simp [hpc]

theorem findAux_oob (uf : UnionFind) (o fuel c : Nat) (hpc : uf.parent c = none) :
    findAux uf o (fuel + 1) c = .error (.outOfBounds c) := by
  rw [findAux]
  simp [hpc]

theorem findAux_dep_err (uf : UnionFind) (o fuel c p : Nat)
    (hpc : uf.parent c = some p) (hcp : c ≠ p) (hdep : c ∈ uf.deprecated_leaders) :
    findAux uf o (fuel + 1) c = .error (.deprecated c o) := by
  rw [findAux]
  simp [hpc, hcp, hdep]

theorem findAux_step (uf : UnionFind) (o fuel c p : Nat)
    (hpc : uf.parent c = some p) (hcp : c ≠ p) (hdep : c ∉ uf.deprecated_leaders) :
    findAux uf o (fuel + 1) c = findAux uf o fuel p := by
  conv_lhs => rw [findAux]
  simp [hpc, hcp, hdep]

theorem findMutAux_root (o fuel : Nat) (uf : UnionFind) (c : Nat)
    (hpc : uf.parent c = some c) :
    findMutAux o (fuel + 1) uf c = .ok (uf, c) := by
  rw [findMutAux]
  simp [hpc]

theorem findMutAux_dep_err (o fuel : Nat) (uf : UnionFind) (c p : Nat)
    (hpc : uf.parent c = some p) (hcp : c ≠ p) (hdep : c ∈ uf.deprecated_leaders) :
    findMutAux o (fuel + 1) uf c = .error (.deprecated c o) := by
  rw [findMutAux]
  simp [hpc, hcp, hdep]

theorem findMutAux_step (o fuel : Nat) (uf : UnionFind) (c p gp : Nat)
    (hpc : uf.parent c = some p) (hcp : c ≠ p) (hdep : c ∉ uf.deprecated_leaders)
    (hgp : uf.parent p = some gp) :
    findMutAux o (fuel + 1) uf c =
      findMutAux o fuel { uf with parents := uf.parents.set c gp } gp := by
  conv_lhs => rw [findMutAux]
  simp [hpc, hcp, hdep, hgp]

theorem find_of_root (uf : UnionFind) (a : Nat)
    (ha : uf.parent a = some a) (hd : a ∉ uf.deprecated_leaders) :
    uf.find a = .ok a := by
  unfold find
  rw [if_neg hd]
  exact findAux_root uf a uf.parents.length a ha

theorem find_two_step (uf : UnionFind) (a b : Nat)
    (hab : uf.parent a = some b) (hne : a ≠ b)
    (hb : uf.parent b = some b) (hd : a ∉ uf.deprecated_leaders) :
    uf.find a = .ok b := by
  obtain ⟨f, hf⟩ : ∃ f, uf.parents.length = f + 1 :=
    ⟨uf.parents.length - 1, by have := parent_lt uf a b hab; omega⟩
  unfold find
  rw [if_neg hd, hf, findAux_step uf a (f + 1) a b hab hne hd,
    findAux_root uf a f b hb]

/-! ### Fuel monotonicity and path-halving preservation -/

theorem findAux_fuel_mono (uf : UnionFind) (o : Nat) :
    ∀ f f2 c r, findAux uf o f c = .ok r → f ≤ f2 → findAux uf o f2 c = .ok r := by
  intro f
  induction f with
  | zero => intro f2 c r h hle; simp [findAux] at h
  | succ f ih =>
    intro f2 c r h hle
    obtain ⟨f3, rfl⟩ : ∃ f3, f2 = f3 + 1 := ⟨f2 - 1, by omega⟩
    cases hpc : uf.parent c with
    | none => rw [findAux_oob uf o f c hpc] at h; exact absurd h (by simp)
    | some p =>
      by_cases hcp : c = p
      · subst hcp
        rw [findAux_root uf o f c hpc] at h
        rw [findAux_root uf o f3 c hpc]
        exact h
      · by_cases hdep : c ∈ uf.deprecated_leaders
        · rw [findAux_dep_err uf o f c p hpc hcp hdep] at h
          exact absurd h (by simp)
        · rw [findAux_step uf o f c p hpc hcp hdep] at h
          rw [findAux_step uf o f3 c p hpc hcp hdep]
          exact ih f3 p r h (by omega)

theorem findAux_cycle2 (uf : UnionFind) (o c p r : Nat)
    (hc : uf.parent c = some p) (hp : uf.parent p = some c) (hcp : c ≠ p) :
    ∀ f, findAux uf o f c ≠ .ok r ∧ findAux uf o f p ≠ .ok r := by
  intro f
  induction f with
  | zero => simp [findAux]
  | succ f ih =>
    constructor
    · intro h
      by_cases hdep : c ∈ uf.deprecated_leaders
      · rw [findAux_dep_err uf o f c p hc hcp hdep] at h
        exact absurd h (by simp)
      · rw [findAux_step uf o f c p hc hcp hdep] at h
        exact ih.2 h
    · intro h
      by_cases hdep : p ∈ uf.deprecated_leaders
      · rw [findAux_dep_err uf o f p c hp (Ne.symm hcp) hdep] at h
        exact absurd h (by simp)
      · rw [findAux_step uf o f p c hp (Ne.symm hcp) hdep] at h
        exact ih.1 h

theorem findAux_halve (uf : UnionFind) (c p gp : Nat)
    (hc : uf.parent c = some p) (hcp : c ≠ p) (hgp : uf.parent p = some gp) :
    ∀ f o x r, findAux uf o f x = .ok r →
      findAux { uf with parents := uf.parents.set c gp } o f x = .ok r := by
  intro f
  induction f with
  | zero => intro o x r h; simp [findAux] at h
  | succ f ih =>
    intro o x r h
    have hclen : c < uf.parents.length := parent_lt uf c p hc
    cases hpx : uf.parent x with
    | none => rw [findAux_oob uf o f x hpx] at h; exact absurd h (by simp)
    | some q =>
      by_cases hxq : x = q
      · subst hxq
        rw [findAux_root uf o f x hpx] at h
        have hxc : c ≠ x := by
          intro hcx
          subst hcx
          rw [hpx] at hc
          exact hcp (Option.some.inj hc)
        rw [findAux_root _ o f x (by rw [parent_set_ne uf c gp x hxc]; exact hpx)]
        exact h
      · by_cases hdep : x ∈ uf.deprecated_leaders
        · rw [findAux_dep_err uf o f x q hpx hxq hdep] at h
          exact absurd h (by simp)
        · rw [findAux_step uf o f x q hpx hxq hdep] at h
          by_cases hxc : x = c
          · -- the halved node: jump to the grandparent directly
            subst hxc
            rw [hpx] at hc
            have hqp : q = p := Option.some.inj hc
            subst hqp
            by_cases hgpc : gp = x
            · exact absurd h ((findAux_cycle2 uf o x q r hpx (by rw [hgp, hgpc]) hxq f).2)
            · obtain ⟨f2, rfl⟩ : ∃ f2, f = f2 + 1 := by
                cases f with
                | zero => exact absurd h (by simp [findAux])
                | succ f2 => exact ⟨f2, rfl⟩
              have hxgp : x ≠ gp := fun hh => hgpc hh.symm
              rw [findAux_step _ o (f2 + 1) x gp
                (parent_set_self uf x gp hclen) hxgp (by simpa using hdep)]
              by_cases hqgp : q = gp
              · have hq_root : uf.parent q = some q := by rw [hgp, hqgp]
                rw [findAux_root uf o f2 q hq_root] at h
                rw [← hqgp]
                rw [findAux_root _ o f2 q (by rw [parent_set_ne uf x q q hxq]; exact hq_root)]
                exact h
              · by_cases hqdep : q ∈ uf.deprecated_leaders
                · rw [findAux_dep_err uf o f2 q gp hgp hqgp hqdep] at h
                  exact absurd h (by simp)
                · rw [findAux_step uf o f2 q gp hgp hqgp hqdep] at h
                  have h2 : findAux uf o (f2 + 1) gp = .ok r :=
                    findAux_fuel_mono uf o f2 (f2 + 1) gp r h (by omega)
                  exact ih o gp r h2
          · -- an untouched node: same step in the halved table
            have hcx : c ≠ x := fun hh => hxc hh.symm
            rw [findAux_step _ o f x q
              (by rw [parent_set_ne uf c gp x hcx]; exact hpx) hxq (by simpa using hdep)]
            exact ih o q r h

theorem findMutAux_of_findAux :
    ∀ (f : Nat) (uf : UnionFind) (o c r : Nat), findAux uf o f c = .ok r →
      ∃ uf2, findMutAux o f uf c = .ok (uf2, r) ∧
        uf2.deprecated_leaders = uf.deprecated_leaders ∧
        uf2.parents.length = uf.parents.length ∧
        ∀ f2 o2 x r2, findAux uf o2 f2 x = .ok r2 → findAux uf2 o2 f2 x = .ok r2 := by
  intro f
  induction f with
  | zero => intro uf o c r h; simp [findAux] at h
  | succ f ih =>
    intro uf o c r h
    cases hpc : uf.parent c with
    | none => rw [findAux_oob uf o f c hpc] at h; exact absurd h (by simp)
    | some p =>
      by_cases hcp : c = p
      · subst hcp
        rw [findAux_root uf o f c hpc] at h
        have hr : c = r := by simpa using h
        subst hr
        exact ⟨uf, findMutAux_root o f uf c hpc, rfl, rfl, fun f2 o2 x r2 hx => hx⟩
      · by_cases hdep : c ∈ uf.deprecated_leaders
        · rw [findAux_dep_err uf o f c p hpc hcp hdep] at h
          exact absurd h (by simp)
        · rw [findAux_step uf o f c p hpc hcp hdep] at h
          obtain ⟨f2, rfl⟩ : ∃ f2, f = f2 + 1 := by
            cases f with
            | zero => exact absurd h (by simp [findAux])
            | succ f2 => exact ⟨f2, rfl⟩
          cases hgp : uf.parent p with
          | none => rw [findAux_oob uf o f2 p hgp] at h; exact absurd h (by simp)
          | some gp =>
            have h3 : findAux uf o (f2 + 1) gp = .ok r := by
              by_cases hpgp : p = gp
              · subst hpgp
                rw [findAux_root uf o f2 p hgp] at h
                rw [findAux_root uf o f2 p hgp]
                exact h
              · by_cases hpdep : p ∈ uf.deprecated_leaders
                · rw [findAux_dep_err uf o f2 p gp hgp hpgp hpdep] at h
                  exact absurd h (by simp)
                · rw [findAux_step uf o f2 p gp hgp hpgp hpdep] at h
                  exact findAux_fuel_mono uf o f2 (f2 + 1) gp r h (by omega)
            have hpres1 := findAux_halve uf c p gp hpc hcp hgp
            obtain ⟨uf2, hmut, hdep2, hlen2, hpres2⟩ :=
              ih { uf with parents := uf.parents.set c gp } o gp r (hpres1 (f2 + 1) o gp r h3)
            refine ⟨uf2, ?_, ?_, ?_, ?_⟩
            · rw [findMutAux_step o (f2 + 1) uf c p gp hpc hcp hdep hgp]
              exact hmut
            · simpa using hdep2
            · simpa using hlen2
            · intro f3 o2 x r2 hx
              exact hpres2 f3 o2 x r2 (hpres1 f3 o2 x r2 hx)

/-! ### Inversion lemmas: what a traversal failure or success implies -/

theorem findMutAux_oob (o fuel : Nat) (uf : UnionFind) (c : Nat)
    (hpc : uf.parent c = none) :
    findMutAux o (fuel + 1) uf c = .error (.outOfBounds c) := by
  rw [findMutAux]
  simp [hpc]

theorem findMutAux_oob2 (o fuel : Nat) (uf : UnionFind) (c p : Nat)
    (hpc : uf.parent c = some p) (hcp : c ≠ p) (hdep : c ∉ uf.deprecated_leaders)
    (hgp : uf.parent p = none) :
    findMutAux o (fuel + 1) uf c = .error (.outOfBounds p) := by
  rw [findMutAux]
  simp [hpc, hcp, hdep, hgp]

theorem findMutAux_dep_eq :
    ∀ (f : Nat) (uf : UnionFind) (o c : Nat) (uf2 : UnionFind) (r : Nat),
      findMutAux o f uf c = .ok (uf2, r) →
      uf2.deprecated_leaders = uf.deprecated_leaders ∧
      uf2.parents.length = uf.parents.length := by
  intro f
  induction f with
  | zero => intro uf o c uf2 r h; simp [findMutAux] at h
  | succ f ih =>
    intro uf o c uf2 r h
    cases hpc : uf.parent c with
    | none => rw [findMutAux_oob o f uf c hpc] at h; exact absurd h (by simp)
    | some p =>
      by_cases hcp : c = p
      · subst hcp
        rw [findMutAux_root o f uf c hpc] at h
        cases h
        exact ⟨rfl, rfl⟩
      · by_cases hdep : c ∈ uf.deprecated_leaders
        · rw [findMutAux_dep_err o f uf c p hpc hcp hdep] at h
          exact absurd h (by simp)
        · cases hgp : uf.parent p with
          | none =>
            rw [findMutAux_oob2 o f uf c p hpc hcp hdep hgp] at h
            exact absurd h (by simp)
          | some gp =>
            rw [findMutAux_step o f uf c p gp hpc hcp hdep hgp] at h
            have h2 := ih { uf with parents := uf.parents.set c gp } o gp uf2 r h
            exact ⟨h2.1, by simpa using h2.2⟩

theorem findAux_dep_inv (uf : UnionFind) (o : Nat) :
    ∀ f c off og, findAux uf o f c = .error (.deprecated off og) →
      og = o ∧ off ∈ uf.deprecated_leaders := by
  intro f
  induction f with
  | zero => intro c off og h; simp [findAux] at h
  | succ f ih =>
    intro c off og h
    cases hpc : uf.parent c with
    | none => rw [findAux_oob uf o f c hpc] at h; simp at h
    | some p =>
      by_cases hcp : c = p
      · subst hcp
        rw [findAux_root uf o f c hpc] at h
        exact absurd h (by simp)
      · by_cases hdep : c ∈ uf.deprecated_leaders
        · rw [findAux_dep_err uf o f c p hpc hcp hdep] at h
          cases h
          exact ⟨rfl, hdep⟩
        · rw [findAux_step uf o f c p hpc hcp hdep] at h
          exact ih p off og h

theorem findMutAux_dep_inv :
    ∀ (f : Nat) (uf : UnionFind) (o c off og : Nat),
      findMutAux o f uf c = .error (.deprecated off og) →
      og = o ∧ off ∈ uf.deprecated_leaders := by
  intro f
  induction f with
  | zero => intro uf o c off og h; simp [findMutAux] at h
  | succ f ih =>
    intro uf o c off og h
    cases hpc : uf.parent c with
    | none => rw [findMutAux_oob o f uf c hpc] at h; simp at h
    | some p =>
      by_cases hcp : c = p
      · subst hcp
        rw [findMutAux_root o f uf c hpc] at h
        exact absurd h (by simp)
      · by_cases hdep : c ∈ uf.deprecated_leaders
        · rw [findMutAux_dep_err o f uf c p hpc hcp hdep] at h
          cases h
          exact ⟨rfl, hdep⟩
        · cases hgp : uf.parent p with
          | none =>
            rw [findMutAux_oob2 o f uf c p hpc hcp hdep hgp] at h
            simp at h
          | some gp =>
            rw [findMutAux_step o f uf c p gp hpc hcp hdep hgp] at h
            exact ih { uf with parents := uf.parents.set c gp } o gp off og h

/-! ### Chains through a deprecated non-root id -/

theorem iterParent_root (uf : UnionFind) (x : Nat) (hx : uf.parent x = some x) :
    ∀ k y, iterParent uf k x = some y → y = x := by
  intro k
  induction k with
  | zero =>
    intro y h
    simp [iterParent] at h
    exact h.symm
  | succ k ih =>
    intro y h
    rw [iterParent, hx] at h
    exact ih y h

theorem findAux_dep_on_chain (uf : UnionFind) (L p : Nat)
    (hL : uf.parent L = some p) (hpL : p ≠ L) (hdep : L ∈ uf.deprecated_leaders) :
    ∀ k id fuel o, iterParent uf k id = some L → k < fuel →
      ∃ off, findAux uf o fuel id = .error (.deprecated off o) := by
  intro k
  induction k with
  | zero =>
    intro id fuel o hit hk
    have hid : id = L := by
      simp [iterParent] at hit
      exact hit
    subst hid
    obtain ⟨f2, rfl⟩ : ∃ f2, fuel = f2 + 1 := ⟨fuel - 1, by omega⟩
    exact ⟨id, findAux_dep_err uf o f2 id p hL (fun hh => hpL hh.symm) hdep⟩
  | succ k ih =>
    intro id fuel o hit hk
    obtain ⟨f2, rfl⟩ : ∃ f2, fuel = f2 + 1 := ⟨fuel - 1, by omega⟩
    cases hq : uf.parent id with
    | none => rw [iterParent, hq] at hit; exact absurd hit (by simp)
    | some q =>
      rw [iterParent, hq] at hit
      by_cases hidq : id = q
      · subst hidq
        have hLid : L = id := iterParent_root uf id hq k L hit
        subst hLid
        rw [hq] at hL
        exact absurd (Option.some.inj hL) (fun hh => hpL hh.symm)
      · by_cases hiddep : id ∈ uf.deprecated_leaders
        · exact ⟨id, findAux_dep_err uf o f2 id q hq hidq hiddep⟩
        · rw [findAux_step uf o f2 id q hq hidq hiddep]
          exact ih q f2 o hit (by omega)

/-! ### Lemmas about split's relinking loops -/

theorem split_eq (uf : UnionFind) (l : Nat) (cs : List (Nat × List Nat)) (p2 : List Nat)
    (h : splitClusters uf.parents cs = some p2) :
    split uf l cs = some ⟨p2, depAfter uf l⟩ := by
  unfold split depAfter
  rw [h]

theorem split_none (uf : UnionFind) (l : Nat) (cs : List (Nat × List Nat))
    (h : splitClusters uf.parents cs = none) : split uf l cs = none := by
  unfold split
  rw [h]

theorem split_inv (uf : UnionFind) (l : Nat) (cs : List (Nat × List Nat)) (uf2 : UnionFind)
    (h : split uf l cs = some uf2) :
    ∃ p2, splitClusters uf.parents cs = some p2 ∧ uf2 = ⟨p2, depAfter uf l⟩ := by
  cases hcl : splitClusters uf.parents cs with
  | none => rw [split_none uf l cs hcl] at h; exact absurd h (by simp)
  | some p2 =>
    rw [split_eq uf l cs p2 hcl] at h
    exact ⟨p2, rfl, (Option.some.inj h).symm⟩

theorem setMembers_length :
    ∀ (ms parents : List Nat) (nl : Nat) (p2 : List Nat),
      setMembers parents nl ms = some p2 → p2.length = parents.length := by
  intro ms
  induction ms with
  | nil =>
    intro parents nl p2 h
    simp [setMembers] at h
    rw [h]
  | cons m rest ih =>
    intro parents nl p2 h
    by_cases hm : m < parents.length
    · rw [setMembers, if_pos hm] at h
      have h2 := ih (parents.set m nl) nl p2 h
      simpa using h2
    · rw [setMembers, if_neg hm] at h
      exact absurd h (by simp)

theorem setMembers_some :
    ∀ (ms parents : List Nat) (nl : Nat), (∀ m ∈ ms, m < parents.length) →
      ∃ p2, setMembers parents nl ms = some p2 := by
  intro ms
  induction ms with
  | nil => intro parents nl hb; exact ⟨parents, rfl⟩
  | cons m rest ih =>
    intro parents nl hb
    have hm : m < parents.length := hb m (by simp)
    obtain ⟨p2, hp2⟩ := ih (parents.set m nl) nl
      (fun x hx => by simpa using hb x (by simp [hx]))
    exact ⟨p2, by rw [setMembers, if_pos hm]; exact hp2⟩

theorem setMembers_get_not_mem :
    ∀ (ms parents : List Nat) (nl : Nat) (p2 : List Nat) (x : Nat),
      setMembers parents nl ms = some p2 → x ∉ ms → p2[x]? = parents[x]? := by
  intro ms
  induction ms with
  | nil =>
    intro parents nl p2 x h hx
    simp [setMembers] at h
    rw [h]
  | cons m rest ih =>
    intro parents nl p2 x h hx
    have hmx : m ≠ x := fun hh => hx (by simp [hh])
    have hxr : x ∉ rest := fun hh => hx (by simp [hh])
    by_cases hm : m < parents.length
    · rw [setMembers, if_pos hm] at h
      rw [ih (parents.set m nl) nl p2 x h hxr]
      exact List.getElem?_set_ne hmx
    · rw [setMembers, if_neg hm] at h
      exact absurd h (by simp)

theorem splitClusters_length :
    ∀ (cs : List (Nat × List Nat)) (parents p2 : List Nat),
      splitClusters parents cs = some p2 → p2.length = parents.length := by
  intro cs
  induction cs with
  | nil =>
    intro parents p2 h
    simp [splitClusters] at h
    rw [h]
  | cons pr rest ih =>
    intro parents p2 h
    obtain ⟨nl, ms⟩ := pr
    cases hsm : setMembers parents nl ms with
    | none => rw [splitClusters, hsm] at h; exact absurd h (by simp)
    | some p3 =>
      rw [splitClusters, hsm] at h
      rw [ih p3 p2 h]
      exact setMembers_length ms parents nl p3 hsm

theorem splitClusters_some :
    ∀ (cs : List (Nat × List Nat)) (parents : List Nat),
      (∀ pr ∈ cs, ∀ m ∈ pr.2, m < parents.length) →
      ∃ p2, splitClusters parents cs = some p2 := by
  intro cs
  induction cs with
  | nil => intro parents hb; exact ⟨parents, rfl⟩
  | cons pr rest ih =>
    intro parents hb
    obtain ⟨nl, ms⟩ := pr
    obtain ⟨p3, hp3⟩ := setMembers_some ms parents nl (fun m hm => hb (nl, ms) (by simp) m hm)
    have hlen := setMembers_length ms parents nl p3 hp3
    obtain ⟨p2, hp2⟩ := ih p3 (fun pr2 hpr2 m hm => by
      rw [hlen]
      exact hb pr2 (by simp [hpr2]) m hm)
    exact ⟨p2, by rw [splitClusters, hp3]; exact hp2⟩

theorem splitClusters_get_not_mem :
    ∀ (cs : List (Nat × List Nat)) (parents p2 : List Nat) (x : Nat),
      splitClusters parents cs = some p2 → (∀ pr ∈ cs, x ∉ pr.2) →
      p2[x]? = parents[x]? := by
  intro cs
  induction cs with
  | nil =>
    intro parents p2 x h hx
    simp [splitClusters] at h
    rw [h]
  | cons pr rest ih =>
    intro parents p2 x h hx
    obtain ⟨nl, ms⟩ := pr
    cases hsm : setMembers parents nl ms with
    | none => rw [splitClusters, hsm] at h; exact absurd h (by simp)
    | some p3 =>
      rw [splitClusters, hsm] at h
      rw [ih p3 p2 x h (fun pr2 hpr2 => hx pr2 (by simp [hpr2]))]
      exact setMembers_get_not_mem ms parents nl p3 x hsm (hx (nl, ms) (by simp))

/-! ### Allocation and state evolution -/

theorem makeSets_parents :
    ∀ (n k : Nat), makeSets { parents := List.range k, deprecated_leaders := [] } n =
      { parents := List.range (k + n), deprecated_leaders := [] } := by
  intro n
  induction n with
  | zero => intro k; simp [makeSets]
  | succ n ih =>
    intro k
    rw [makeSets]
    have hstep : (make_set { parents := List.range k, deprecated_leaders := [] }).1 =
        { parents := List.range (k + 1), deprecated_leaders := [] } := by
      simp [make_set, List.range_succ]
    rw [hstep, ih (k + 1)]
    have : k + 1 + n = k + (n + 1) := by omega
    rw [this]

theorem mergeReach_dep (uf : UnionFind) (h : MergeReach uf) :
    uf.deprecated_leaders = [] := by
  induction h with
  | empty => rfl
  | step_make uf h ih => simpa [make_set] using ih
  | step_union uf a b uf2 r h hu ih =>
    unfold union at hu
    by_cases hb : b < uf.parents.length
    · rw [if_pos hb] at hu
      cases hu
      simpa using ih
    · rw [if_neg hb] at hu
      exact absurd hu (by simp)

theorem step_dep_mono (uf uf2 : UnionFind) (h : Step uf uf2) :
    ∀ x, x ∈ uf.deprecated_leaders → x ∈ uf2.deprecated_leaders := by
  cases h with
  | make_set =>
    intro x hx
    simpa [make_set] using hx
  | union a b uf3 r hu =>
    intro x hx
    unfold union at hu
    by_cases hb : b < uf.parents.length
    · rw [if_pos hb] at hu
      cases hu
      simpa using hx
    · rw [if_neg hb] at hu
      exact absurd hu (by simp)
  | find_mut i uf3 r hf =>
    intro x hx
    unfold find_mut at hf
    by_cases hdep : i ∈ uf.deprecated_leaders
    · rw [if_pos hdep] at hf
      exact absurd hf (by simp)
    · rw [if_neg hdep] at hf
      rw [(findMutAux_dep_eq (uf.parents.length + 1) uf i i uf2 r hf).1]
      exact hx
  | split l cs uf3 hs =>
    intro x hx
    obtain ⟨p2, hcl, rfl⟩ := split_inv uf l cs uf2 hs
    by_cases hl : l ∈ uf.deprecated_leaders
    · simpa [depAfter, hl] using hx
    · simp [depAfter, hl]
      exact Or.inl hx

theorem step_dep_nodup (uf uf2 : UnionFind) (h : Step uf uf2)
    (hn : uf.deprecated_leaders.Nodup) : uf2.deprecated_leaders.Nodup := by
  cases h with
  | make_set => simpa [make_set] using hn
  | union a b uf3 r hu =>
    unfold union at hu
    by_cases hb : b < uf.parents.length
    · rw [if_pos hb] at hu
      cases hu
      simpa using hn
    · rw [if_neg hb] at hu
      exact absurd hu (by simp)
  | find_mut i uf3 r hf =>
    unfold find_mut at hf
    by_cases hdep : i ∈ uf.deprecated_leaders
    · rw [if_pos hdep] at hf
      exact absurd hf (by simp)
    · rw [if_neg hdep] at hf
      rw [(findMutAux_dep_eq (uf.parents.length + 1) uf i i uf2 r hf).1]
      exact hn
  | split l cs uf3 hs =>
    obtain ⟨p2, hcl, rfl⟩ := split_inv uf l cs uf2 hs
    by_cases hl : l ∈ uf.deprecated_leaders
    · simpa [depAfter, hl] using hn
    · simp only [depAfter, hl, ite_false, if_false]
      exact List.Nodup.append hn (List.nodup_singleton l)
        (fun a ha hb => hl (List.mem_singleton.mp hb ▸ ha))

theorem reach_dep_mono (uf uf2 : UnionFind) (h : Reach uf uf2) :
    ∀ x, x ∈ uf.deprecated_leaders → x ∈ uf2.deprecated_leaders := by
  induction h with
  | refl => exact fun x hx => hx
  | tail h1 h2 ih => exact fun x hx => step_dep_mono _ _ h2 x (ih x hx)

theorem reach_dep_nodup (uf2 : UnionFind) (h : Reach empty uf2) :
    uf2.deprecated_leaders.Nodup := by
  induction h with
  | refl => simp [empty]
  | tail h1 h2 ih => exact step_dep_nodup _ _ h2 ih

/-! ### Claim C8: sequential allocation and the singleton property -/

/-- C8: starting from the empty forest, the i-th `make_set` call (counting
from 0) returns id `i`, stores `i` as its own parent, and grows the parent
table by exactly one; after `n` calls with no unions or splits, `size` is
`n` and `find i = i` for every `i < n`. -/
theorem c8_sequential_allocation (n i : Nat) :
    (makeSets empty n).parents = List.range n ∧
    (makeSets empty n).size = n ∧
    (make_set (makeSets empty i)).2 = i ∧
    (make_set (makeSets empty i)).1.parents.length = i + 1 ∧
    (make_set (makeSets empty i)).1.parent i = some i ∧
    (i < n → (makeSets empty n).find i = .ok i) := by
  have hbase : ∀ m, makeSets empty m =
      { parents := List.range m, deprecated_leaders := [] } := by
    intro m
    have h0 : empty = { parents := List.range 0, deprecated_leaders := [] } := by
      simp [empty]
    rw [h0, makeSets_parents m 0]
    simp
  refine ⟨?_, ?_, ?_, ?_, ?_, ?_⟩
  · rw [hbase n]
  · rw [hbase n]
    simp [size]
  · rw [hbase i]
    simp [make_set]
  · rw [hbase i]
    simp [make_set]
  · rw [hbase i]
    have hps : (make_set { parents := List.range i, deprecated_leaders := [] }).1.parent i
        = (List.range (i + 1))[i]? := by
      simp [make_set, parent, List.range_succ]
    rw [hps]
    exact List.getElem?_range (Nat.lt_succ_self i)
  · intro hin
    rw [hbase n]
    refine find_of_root _ i ?_ ?_
    · show (List.range n)[i]? = some i
      exact List.getElem?_range hin
    · exact List.not_mem_nil i

/-- C8 witness at n = 3, i = 1. -/
theorem c8_sequential_allocation_witness :
    1 < 3 ∧ (makeSets empty 3).find 1 = .ok 1 :=
  ⟨by omega, (c8_sequential_allocation 3 1).2.2.2.2.2 (by omega)⟩

/-! ### Claim C3: union directionality -/

/-- C3: if `a` and `b` are canonical leaders (self-looped parent entries)
and neither is deprecated, then `union a b` sets the parent entry of `b`
to `a`, returns `a`, and afterwards `find b = a` and `find a = a`. -/
theorem c3_union_directionality (uf : UnionFind) (a b : Nat)
    (ha : uf.parent a = some a) (hb : uf.parent b = some b)
    (hadep : a ∉ uf.deprecated_leaders) (hbdep : b ∉ uf.deprecated_leaders) :
    ∃ uf2, uf.union a b = .ok (uf2, a) ∧ uf2.parent b = some a ∧
      uf2.find b = .ok a ∧ uf2.find a = .ok a := by
  have hblen : b < uf.parents.length := parent_lt uf b b hb
  refine ⟨{ uf with parents := uf.parents.set b a }, ?_, parent_set_self uf b a hblen, ?_, ?_⟩
  · unfold union
    rw [if_pos hblen]
  · by_cases hab : a = b
    · subst hab
      exact find_of_root _ a (parent_set_self uf a a hblen) hadep
    · have hba : b ≠ a := fun hh => hab hh.symm
      refine find_two_step _ b a (parent_set_self uf b a hblen) hba ?_ hbdep
      rw [parent_set_ne uf b a a hba]
      exact ha
  · by_cases hab : a = b
    · subst hab
      exact find_of_root _ a (parent_set_self uf a a hblen) hadep
    · have hba : b ≠ a := fun hh => hab hh.symm
      refine find_of_root _ a ?_ hadep
      rw [parent_set_ne uf b a a hba]
      exact ha

/-- C3 witness on the two-singleton forest. -/
theorem c3_union_directionality_witness :
    parent ⟨[0, 1], []⟩ 0 = some 0 ∧ parent ⟨[0, 1], []⟩ 1 = some 1 ∧
    (∃ uf2, union ⟨[0, 1], []⟩ 0 1 = .ok (uf2, 0) ∧ uf2.parent 1 = some 0 ∧
      uf2.find 1 = .ok 0 ∧ uf2.find 0 = .ok 0) :=
  ⟨rfl, rfl, c3_union_directionality ⟨[0, 1], []⟩ 0 1 rfl rfl
    (List.not_mem_nil 0) (List.not_mem_nil 1)⟩

/-! ### Claim C2: split reassignment -/

/-- C2: for a leader `L` whose class contains distinct members `m1, m2, m3`
(none of them `L` itself), and fresh singleton roots `L1, L2`, after
`split L [(L1, [m1, m2]), (L2, [m3])]` each listed member's parent entry
is its cluster's new leader, so `find m1 = L1`, `find m2 = L1`,
`find m3 = L2`. -/
theorem c2_split_reassignment (uf : UnionFind) (L m1 m2 m3 L1 L2 : Nat)
    (hm12 : m1 ≠ m2) (hm13 : m1 ≠ m3) (hm23 : m2 ≠ m3)
    (hf1 : uf.find m1 = .ok L) (hf2 : uf.find m2 = .ok L) (hf3 : uf.find m3 = .ok L)
    (hm1L : m1 ≠ L) (hm2L : m2 ≠ L) (hm3L : m3 ≠ L)
    (hm1len : m1 < uf.parents.length) (hm2len : m2 < uf.parents.length)
    (hm3len : m3 < uf.parents.length)
    (hm1dep : m1 ∉ uf.deprecated_leaders) (hm2dep : m2 ∉ uf.deprecated_leaders)
    (hm3dep : m3 ∉ uf.deprecated_leaders)
    (hL1root : uf.parent L1 = some L1) (hL2root : uf.parent L2 = some L2)
    (hL1m1 : L1 ≠ m1) (hL1m2 : L1 ≠ m2) (hL1m3 : L1 ≠ m3)
    (hL2m1 : L2 ≠ m1) (hL2m2 : L2 ≠ m2) (hL2m3 : L2 ≠ m3)
    (hL1dep : L1 ∉ uf.deprecated_leaders) (hL2dep : L2 ∉ uf.deprecated_leaders)
    (hL1L : L1 ≠ L) (hL2L : L2 ≠ L) :
    ∃ uf2, uf.split L [(L1, [m1, m2]), (L2, [m3])] = some uf2 ∧
      uf2.parent m1 = some L1 ∧ uf2.parent m2 = some L1 ∧ uf2.parent m3 = some L2 ∧
      uf2.find m1 = .ok L1 ∧ uf2.find m2 = .ok L1 ∧ uf2.find m3 = .ok L2 := by
  have h1 : m2 < (uf.parents.set m1 L1).length := by simpa using hm2len
  have h2 : m3 < ((uf.parents.set m1 L1).set m2 L1).length := by simpa using hm3len
  have hsm1 : setMembers uf.parents L1 [m1, m2] =
      some ((uf.parents.set m1 L1).set m2 L1) := by
    rw [setMembers, if_pos hm1len, setMembers, if_pos h1]
    rfl
  have hsm2 : setMembers ((uf.parents.set m1 L1).set m2 L1) L2 [m3] =
      some (((uf.parents.set m1 L1).set m2 L1).set m3 L2) := by
    rw [setMembers, if_pos h2]
    rfl
  have hsc : splitClusters uf.parents [(L1, [m1, m2]), (L2, [m3])] =
      some (((uf.parents.set m1 L1).set m2 L1).set m3 L2) := by
    simp only [splitClusters, hsm1, hsm2]
  have hdep2 : ∀ x, x ∉ uf.deprecated_leaders → x ≠ L → x ∉ depAfter uf L := by
    intro x hx hxL
    unfold depAfter
    by_cases hl : L ∈ uf.deprecated_leaders
    · rw [if_pos hl]
      exact hx
    · rw [if_neg hl]
      simp [hx, hxL]
  have hp1 : (((uf.parents.set m1 L1).set m2 L1).set m3 L2)[m1]? = some L1 := by
    rw [List.getElem?_set_ne (fun hh => hm13 hh.symm),
      List.getElem?_set_ne (fun hh => hm12 hh.symm),
      List.getElem?_set_self hm1len]
  have hp2 : (((uf.parents.set m1 L1).set m2 L1).set m3 L2)[m2]? = some L1 := by
    rw [List.getElem?_set_ne (fun hh => hm23 hh.symm),
      List.getElem?_set_self h1]
  have hp3 : (((uf.parents.set m1 L1).set m2 L1).set m3 L2)[m3]? = some L2 := by
    rw [List.getElem?_set_self h2]
  have hpl1 : (((uf.parents.set m1 L1).set m2 L1).set m3 L2)[L1]? = some L1 := by
    rw [List.getElem?_set_ne (fun hh => hL1m3 hh.symm),
      List.getElem?_set_ne (fun hh => hL1m2 hh.symm),
      List.getElem?_set_ne (fun hh => hL1m1 hh.symm)]
    exact hL1root
  have hpl2 : (((uf.parents.set m1 L1).set m2 L1).set m3 L2)[L2]? = some L2 := by
    rw [List.getElem?_set_ne (fun hh => hL2m3 hh.symm),
      List.getElem?_set_ne (fun hh => hL2m2 hh.symm),
      List.getElem?_set_ne (fun hh => hL2m1 hh.symm)]
    exact hL2root
  refine ⟨⟨((uf.parents.set m1 L1).set m2 L1).set m3 L2, depAfter uf L⟩,
    split_eq uf L _ _ hsc, hp1, hp2, hp3, ?_, ?_, ?_⟩
  · exact find_two_step _ m1 L1 hp1 (fun hh => hL1m1 hh.symm) hpl1 (hdep2 m1 hm1dep hm1L)
  · exact find_two_step _ m2 L1 hp2 (fun hh => hL1m2 hh.symm) hpl1 (hdep2 m2 hm2dep hm2L)
  · exact find_two_step _ m3 L2 hp3 (fun hh => hL2m3 hh.symm) hpl2 (hdep2 m3 hm3dep hm3L)

/-- C2 witness: class of leader 0 with members 1, 2, 3 and fresh singleton
roots 4 and 5. -/
theorem c2_split_reassignment_witness :
    find ⟨[0, 0, 0, 0, 4, 5], []⟩ 1 = .ok 0 ∧
    (∃ uf2, split ⟨[0, 0, 0, 0, 4, 5], []⟩ 0 [(4, [1, 2]), (5, [3])] = some uf2 ∧
      uf2.parent 1 = some 4 ∧ uf2.parent 2 = some 4 ∧ uf2.parent 3 = some 5 ∧
      uf2.find 1 = .ok 4 ∧ uf2.find 2 = .ok 4 ∧ uf2.find 3 = .ok 5) :=
  ⟨rfl, c2_split_reassignment ⟨[0, 0, 0, 0, 4, 5], []⟩ 0 1 2 3 4 5
    (by omega) (by omega) (by omega) rfl rfl rfl
    (by omega) (by omega) (by omega)
    (by simp) (by simp) (by simp)
    (by simp) (by simp) (by simp)
    rfl rfl
    (by omega) (by omega) (by omega)
    (by omega) (by omega) (by omega)
    (by simp) (by simp)
    (by omega) (by omega)⟩

/-! ### Claim C4: path-halving step and the concrete merge scenario -/

/-- C4: at each traversal step on a non-root, non-deprecated id, `find_mut`
rewrites that id's parent entry to its grandparent and then continues from
that grandparent; and the concrete merge scenario (ten `make_set` calls,
the six unions, then `find_mut` on every id 0..9) yields the parent table
`[0,0,0,0,4,5,6,6,6,6]`. -/
theorem c4_path_halving_and_merge_scenario :
    (∀ (o fuel : Nat) (uf : UnionFind) (c p gp : Nat),
        uf.parent c = some p → c ≠ p → c ∉ uf.deprecated_leaders →
        uf.parent p = some gp →
        findMutAux o (fuel + 1) uf c =
          findMutAux o fuel { uf with parents := uf.parents.set c gp } gp) ∧
    mergeScenario = .ok ⟨[0, 0, 0, 0, 4, 5, 6, 6, 6, 6], []⟩ := by
  constructor
  · intro o fuel uf c p gp hpc hcp hdep hgp
    exact findMutAux_step o fuel uf c p gp hpc hcp hdep hgp
  · rfl

/-- C4 witness: one halving step on the chain 0 → 1 → 2. -/
theorem c4_path_halving_and_merge_scenario_witness :
    parent ⟨[1, 2, 2], []⟩ 0 = some 1 ∧
    findMutAux 0 3 ⟨[1, 2, 2], []⟩ 0 = findMutAux 0 2 ⟨[2, 2, 2], []⟩ 2 :=
  ⟨rfl, c4_path_halving_and_merge_scenario.1 0 2 ⟨[1, 2, 2], []⟩ 0 1 2 rfl
    (by omega) (List.not_mem_nil 0) rfl⟩

/-! ### Claim C5: compression convergence -/

/-- C5: on a state reachable by `make_set` and `union` calls only, for any
id on which `find` succeeds with leader `r`, `find_mut` succeeds with the
same leader `r`, and on the compressed state both `find` and `find_mut`
still return `r`. -/
theorem c5_compression_convergence (uf : UnionFind) (id r : Nat)
    (hreach : MergeReach uf) (hfind : uf.find id = .ok r) :
    ∃ uf2 uf3, uf.find_mut id = .ok (uf2, r) ∧ uf2.find id = .ok r ∧
      uf2.find_mut id = .ok (uf3, r) := by
  have hdep0 : uf.deprecated_leaders = [] := mergeReach_dep uf hreach
  have hid : id ∉ uf.deprecated_leaders := by
    rw [hdep0]
    exact List.not_mem_nil id
  unfold find at hfind
  rw [if_neg hid] at hfind
  obtain ⟨uf2, hmut, hdep2, hlen2, hpres⟩ :=
    findMutAux_of_findAux (uf.parents.length + 1) uf id id r hfind
  have hid2 : id ∉ uf2.deprecated_leaders := by
    rw [hdep2]
    exact hid
  have hfind2 : findAux uf2 id (uf2.parents.length + 1) id = .ok r := by
    rw [hlen2]
    exact hpres (uf.parents.length + 1) id id r hfind
  obtain ⟨uf3, hmut3, hd3, hl3, hp3⟩ :=
    findMutAux_of_findAux (uf2.parents.length + 1) uf2 id id r hfind2
  refine ⟨uf2, uf3, ?_, ?_, ?_⟩
  · unfold find_mut
    rw [if_neg hid]
    exact hmut
  · unfold find
    rw [if_neg hid2]
    exact hfind2
  · unfold find_mut
    rw [if_neg hid2]
    exact hmut3

/-- C5 witness: the chain 2 → 1 → 0 built by make_set and union calls. -/
theorem c5_compression_convergence_witness :
    MergeReach ⟨[0, 0, 1], []⟩ ∧ find ⟨[0, 0, 1], []⟩ 2 = .ok 0 ∧
    (∃ uf2 uf3, find_mut ⟨[0, 0, 1], []⟩ 2 = .ok (uf2, 0) ∧ uf2.find 2 = .ok 0 ∧
      uf2.find_mut 2 = .ok (uf3, 0)) := by
  have hm : MergeReach ⟨[0, 0, 1], []⟩ := by
    have h3 : MergeReach ⟨[0, 1, 2], []⟩ :=
      MergeReach.step_make _ (MergeReach.step_make _ (MergeReach.step_make _ MergeReach.empty))
    have h4 : MergeReach ⟨[0, 0, 2], []⟩ :=
      MergeReach.step_union ⟨[0, 1, 2], []⟩ 0 1 ⟨[0, 0, 2], []⟩ 0 h3 rfl
    exact MergeReach.step_union ⟨[0, 0, 2], []⟩ 1 2 ⟨[0, 0, 1], []⟩ 1 h4 rfl
  exact ⟨hm, rfl, c5_compression_convergence ⟨[0, 0, 1], []⟩ 2 0 hm rfl⟩

/-! ### Claim C7: failure diagnostics -/

/-- C7: whenever `find` or `find_mut` fails with the stale-reference
violation, the error value carries the original query id (`og = id`) and
an offending id that is actually in the deprecated-leader set. -/
theorem c7_failure_diagnostics :
    (∀ (uf : UnionFind) (id off og : Nat),
        uf.find id = .error (.deprecated off og) →
        og = id ∧ off ∈ uf.deprecated_leaders) ∧
    (∀ (uf : UnionFind) (id off og : Nat),
        uf.find_mut id = .error (.deprecated off og) →
        og = id ∧ off ∈ uf.deprecated_leaders) := by
  constructor
  · intro uf id off og h
    unfold find at h
    by_cases hdep : id ∈ uf.deprecated_leaders
    · rw [if_pos hdep] at h
      have h2 : UFError.deprecated id id = UFError.deprecated off og :=
        Except.error.inj h
      cases h2
      exact ⟨rfl, hdep⟩
    · rw [if_neg hdep] at h
      exact findAux_dep_inv uf id (uf.parents.length + 1) id off og h
  · intro uf id off og h
    unfold find_mut at h
    by_cases hdep : id ∈ uf.deprecated_leaders
    · rw [if_pos hdep] at h
      have h2 : UFError.deprecated id id = UFError.deprecated off og :=
        Except.error.inj h
      cases h2
      exact ⟨rfl, hdep⟩
    · rw [if_neg hdep] at h
      exact findMutAux_dep_inv (uf.parents.length + 1) uf id id off og h

/-- C7 witness: a failing find on a deprecated id. -/
theorem c7_failure_diagnostics_witness :
    find ⟨[0, 0], [0]⟩ 0 = .error (.deprecated 0 0) ∧
    (0 = 0 ∧ 0 ∈ ([0] : List Nat)) :=
  ⟨rfl, c7_failure_diagnostics.1 ⟨[0, 0], [0]⟩ 0 0 0 rfl⟩

/-! ### Claim C9: monotonic, duplicate-free deprecation set -/

/-- C9: every operation leaves the deprecated-leader set a superset of
what it was; `make_set`, `union` and `find_mut` leave it unchanged; only
`split` extends it, appending `leader_id` exactly when it is not already
present; and along any operation sequence from the empty forest the set
stays duplicate-free. -/
theorem c9_monotonic_deprecation_set :
    (∀ uf uf2, Step uf uf2 →
        ∀ x, x ∈ uf.deprecated_leaders → x ∈ uf2.deprecated_leaders) ∧
    (∀ uf : UnionFind, (make_set uf).1.deprecated_leaders = uf.deprecated_leaders) ∧
    (∀ (uf : UnionFind) (a b : Nat) (uf2 : UnionFind) (r : Nat),
        uf.union a b = .ok (uf2, r) →
        uf2.deprecated_leaders = uf.deprecated_leaders) ∧
    (∀ (uf : UnionFind) (i : Nat) (uf2 : UnionFind) (r : Nat),
        uf.find_mut i = .ok (uf2, r) →
        uf2.deprecated_leaders = uf.deprecated_leaders) ∧
    (∀ (uf : UnionFind) (l : Nat) (cs : List (Nat × List Nat)) (uf2 : UnionFind),
        uf.split l cs = some uf2 → uf2.deprecated_leaders = depAfter uf l) ∧
    (∀ uf2, Reach empty uf2 → uf2.deprecated_leaders.Nodup) := by
  refine ⟨step_dep_mono, fun uf => rfl, ?_, ?_, ?_, reach_dep_nodup⟩
  · intro uf a b uf2 r hu
    unfold union at hu
    by_cases hb : b < uf.parents.length
    · rw [if_pos hb] at hu
      cases hu
      rfl
    · rw [if_neg hb] at hu
      exact absurd hu (by simp)
  · intro uf i uf2 r hf
    unfold find_mut at hf
    by_cases hdep : i ∈ uf.deprecated_leaders
    · rw [if_pos hdep] at hf
      exact absurd hf (by simp)
    · rw [if_neg hdep] at hf
      exact (findMutAux_dep_eq (uf.parents.length + 1) uf i i uf2 r hf).1
  · intro uf l cs uf2 hs
    obtain ⟨p2, hcl, rfl⟩ := split_inv uf l cs uf2 hs
    rfl

/-- C9 witness: splitting leader 0 of a singleton forest records it once. -/
theorem c9_monotonic_deprecation_set_witness :
    split ⟨[0], []⟩ 0 [] = some ⟨[0], [0]⟩ ∧
    (⟨[0], [0]⟩ : UnionFind).deprecated_leaders = depAfter ⟨[0], []⟩ 0 :=
  ⟨rfl, c9_monotonic_deprecation_set.2.2.2.2.1 ⟨[0], []⟩ 0 [] ⟨[0], [0]⟩ rfl⟩

/-! ### Claim C10: split performs no bounds checks on leader or new leaders -/

/-- C10: `split` indexes the parent table only at the member ids, so it
succeeds whenever every member id is allocated, with no constraint at all
on `leader_id` or the new-leader ids; the (possibly unallocated)
`leader_id` still enters the deprecated set and the table keeps its
length. -/
theorem c10_split_no_bounds_check (uf : UnionFind) (L : Nat)
    (cs : List (Nat × List Nat))
    (hm : ∀ pr ∈ cs, ∀ m ∈ pr.2, m < uf.parents.length) :
    ∃ uf2, uf.split L cs = some uf2 ∧ L ∈ uf2.deprecated_leaders ∧
      uf2.parents.length = uf.parents.length := by
  obtain ⟨p2, hp2⟩ := splitClusters_some cs uf.parents hm
  refine ⟨⟨p2, depAfter uf L⟩, split_eq uf L cs p2 hp2, ?_,
    splitClusters_length cs uf.parents p2 hp2⟩
  show L ∈ depAfter uf L
  unfold depAfter
  by_cases hl : L ∈ uf.deprecated_leaders
  · rw [if_pos hl]
    exact hl
  · rw [if_neg hl]
    simp

/-- C10 witness: unallocated leader 99 and unallocated new leader 42. -/
theorem c10_split_no_bounds_check_witness :
    (∀ pr ∈ ([(42, [0])] : List (Nat × List Nat)), ∀ m ∈ pr.2, m < 1) ∧
    (∃ uf2, split ⟨[0], []⟩ 99 [(42, [0])] = some uf2 ∧
      99 ∈ uf2.deprecated_leaders ∧ uf2.parents.length = 1) :=
  ⟨by decide, c10_split_no_bounds_check ⟨[0], []⟩ 99 [(42, [0])] (by decide)⟩

/-! ### Claim C6 (corrected): split and the old leader's parent entry -/

/-- C6 counterexample: the stated claim fails when `leader_id` itself is
listed among the members of a cluster — an input permitted by split's
stated precondition, since every id involved is allocated, `0` is a
self-looped leader, and member `0` belongs to `0`'s class.  After
`split 0 [(1, [0])]` the parent entry of `0` has changed from `some 0` to
`some 1`. -/
theorem c6_counterexample :
    parent ⟨[0, 1], []⟩ 0 = some 0 ∧
    find ⟨[0, 1], []⟩ 0 = .ok 0 ∧
    parent ⟨[0, 1], []⟩ 1 = some 1 ∧
    split ⟨[0, 1], []⟩ 0 [(1, [0])] = some ⟨[1, 1], [0]⟩ ∧
    parent ⟨[1, 1], [0]⟩ 0 = some 1 :=
  ⟨rfl, rfl, rfl, rfl, rfl⟩

/-- C6 (amended): `split leader_id clusters` leaves the parent entry of
`leader_id` unchanged provided `leader_id` is not itself listed among the
members of any cluster. -/
theorem c6_split_leader_parent_unchanged (uf : UnionFind) (L : Nat)
    (cs : List (Nat × List Nat)) (uf2 : UnionFind)
    (hs : uf.split L cs = some uf2) (hnm : ∀ pr ∈ cs, L ∉ pr.2) :
    uf2.parent L = uf.parent L := by
  obtain ⟨p2, hcl, rfl⟩ := split_inv uf L cs uf2 hs
  show p2[L]? = uf.parents[L]?
  exact splitClusters_get_not_mem cs uf.parents p2 L hcl hnm

/-- C6 witness: splitting leader 0 with member list [1] keeps 0's entry. -/
theorem c6_split_leader_parent_unchanged_witness :
    split ⟨[0, 0], []⟩ 0 [(1, [1])] = some ⟨[0, 1], [0]⟩ ∧
    parent ⟨[0, 1], [0]⟩ 0 = parent ⟨[0, 0], []⟩ 0 :=
  ⟨rfl, c6_split_leader_parent_unchanged ⟨[0, 0], []⟩ 0 [(1, [1])] ⟨[0, 1], [0]⟩
    rfl (by decide)⟩

/-! ### Claim C1 (corrected): deprecation permanence -/

/-- C1 counterexample to the claim as stated.  First part: after
`split 0 []` on the forest `[0, 0]`, id 1's parent chain still runs
through the deprecated leader 0, yet `find 1` succeeds and returns the
deprecated id 0, because the loop never checks the terminal self-looped
id.  Second part: after `split 1 []` on `[1, 2, 2]`, id 0's chain runs
through the deprecated non-root 1, yet `find_mut 0` succeeds (returning
leader 2) because path halving jumps from 0 straight to its grandparent
2, skipping 1 — even though plain `find 0` fails on the same state. -/
theorem c1_counterexample :
    (split ⟨[0, 0], []⟩ 0 [] = some ⟨[0, 0], [0]⟩ ∧
      parent ⟨[0, 0], [0]⟩ 1 = some 0 ∧
      find ⟨[0, 0], [0]⟩ 1 = .ok 0) ∧
    (split ⟨[1, 2, 2], []⟩ 1 [] = some ⟨[1, 2, 2], [1]⟩ ∧
      parent ⟨[1, 2, 2], [1]⟩ 0 = some 1 ∧
      find ⟨[1, 2, 2], [1]⟩ 0 = .error (.deprecated 1 0) ∧
      find_mut ⟨[1, 2, 2], [1]⟩ 0 = .ok (⟨[2, 2, 2], [1]⟩, 2)) :=
  ⟨⟨rfl, rfl, rfl⟩, ⟨rfl, rfl, rfl, rfl⟩⟩

/-- C1 (amended): after `split L …`, in every later state of the instance
the calls `find L` and `find_mut L` themselves fail with the
stale-reference violation; and `find` on any id whose chain reaches `L`
at a point where `L` is not a self-looped root also fails.  (When `L` is
the chain's terminal self-looped root, `find` instead returns `L`, and
`find_mut` can skip a deprecated intermediate id entirely — see the
counterexample.) -/
theorem c1_deprecation_permanence :
    (∀ (uf : UnionFind) (L : Nat) (cs : List (Nat × List Nat)) (uf0 uf2 : UnionFind),
        uf.split L cs = some uf0 → Reach uf0 uf2 →
        uf2.find L = .error (.deprecated L L) ∧
        uf2.find_mut L = .error (.deprecated L L)) ∧
    (∀ (uf : UnionFind) (id k L p : Nat),
        uf.iterParent k id = some L → uf.parent L = some p → p ≠ L →
        L ∈ uf.deprecated_leaders → k ≤ uf.parents.length →
        ∃ off, uf.find id = .error (.deprecated off id)) := by
  constructor
  · intro uf L cs uf0 uf2 hs hr
    have hL0 : L ∈ uf0.deprecated_leaders := by
      obtain ⟨p2, hcl, rfl⟩ := split_inv uf L cs uf0 hs
      show L ∈ depAfter uf L
      unfold depAfter
      by_cases hl : L ∈ uf.deprecated_leaders
      · rw [if_pos hl]
        exact hl
      · rw [if_neg hl]
        simp
    have hL2 : L ∈ uf2.deprecated_leaders := reach_dep_mono uf0 uf2 hr L hL0
    constructor
    · unfold find
      rw [if_pos hL2]
    · unfold find_mut
      rw [if_pos hL2]
  · intro uf id k L p hit hL hpL hdepL hk
    by_cases hid : id ∈ uf.deprecated_leaders
    · refine ⟨id, ?_⟩
      unfold find
      rw [if_pos hid]
    · obtain ⟨off, hoff⟩ := findAux_dep_on_chain uf L p hL hpL hdepL k id
        (uf.parents.length + 1) id hit (by omega)
      refine ⟨off, ?_⟩
      unfold find
      rw [if_neg hid]
      exact hoff

/-- C1 witness: permanence of the failure on the split leader itself. -/
theorem c1_deprecation_permanence_witness :
    split ⟨[0], []⟩ 0 [] = some ⟨[0], [0]⟩ ∧
    find ⟨[0], [0]⟩ 0 = .error (.deprecated 0 0) ∧
    find_mut ⟨[0], [0]⟩ 0 = .error (.deprecated 0 0) := by
  have h := c1_deprecation_permanence.1 ⟨[0], []⟩ 0 [] ⟨[0], [0]⟩ ⟨[0], [0]⟩
    rfl Relation.ReflTransGen.refl
  exact ⟨rfl, h.1, h.2⟩

end UnionFind
